import Mathlib

/-!
Shallow embedding of the core of `src/opa.ts` (vscode-opa extension):
version parsing/comparison (`parseOPAVersion`, `opaVersionSameOrNewerThan`),
the version-string extraction (`getOPAVersionString`), reference formatting
(`refToString`), and the subprocess invocation protocol (`runWithStatus`,
`run`).

JavaScript primitives that the source relies on are modelled explicitly:

* `String.prototype.split(sep, limit)` — ECMAScript semantics: the result is
  the first `limit` pieces of the full split; the remainder of the string is
  **discarded**, not appended to the last piece.
* `Number(string)` — modelled by `jsNumber`, covering whitespace trimming,
  signs, `Infinity`, decimal literals with fraction/exponent, and the
  `0x`/`0o`/`0b` non-decimal forms.  Finite values are kept as exact
  rationals; binary64 rounding/overflow of finite literals is not modelled
  (all version components of interest are small integers).
* `>` / `>=` on numbers — `jsGt`, with NaN incomparable on both sides.
* `>=` on strings — `jsStrGe`, lexicographic on UTF-16 code units.
* `JSON.stringify` on primitive values — `jsonStringify`.
-/

set_option autoImplicit false

/-- JavaScript number values produced by `Number(string)`: NaN, signed
infinity (`inf true` is `-Infinity`), or a finite value kept as an exact
rational. -/
inductive JSNum where
  | nan : JSNum
  | inf (neg : Bool) : JSNum
  | val (q : ℚ) : JSNum
deriving DecidableEq

/-- JavaScript strict `a > b` on numbers: any comparison involving NaN is
false; infinities ordered as usual; finite values compared as rationals. -/
def jsGt : JSNum → JSNum → Bool
  | .nan, _ => false
  | .inf _, .nan => false
  | .val _, .nan => false
  | .inf true, .inf _ => false
  | .inf true, .val _ => false
  | .inf false, .inf true => true
  | .inf false, .inf false => false
  | .inf false, .val _ => true
  | .val _, .inf false => false
  | .val _, .inf true => true
  | .val a, .val b => decide (b < a)

/-- UTF-16 code units of a character (surrogate pair for astral planes),
used to model JavaScript string comparison. -/
def charUtf16 (c : Char) : List Nat :=
  if c.toNat < 0x10000 then [c.toNat]
  else [0xd800 + (c.toNat - 0x10000) / 0x400, 0xdc00 + (c.toNat - 0x10000) % 0x400]

/-- UTF-16 code-unit sequence of a string. -/
def utf16Units (s : String) : List Nat :=
  (s.toList.map charUtf16).flatten

/-- Lexicographic `≥` on code-unit lists (a proper prefix is smaller). -/
def cuGe : List Nat → List Nat → Bool
  | _, [] => true
  | [], _ :: _ => false
  | a :: as, b :: bs => if b < a then true else if a < b then false else cuGe as bs

/-- JavaScript `a >= b` on strings: lexicographic on UTF-16 code units. -/
def jsStrGe (a b : String) : Bool :=
  cuGe (utf16Units a) (utf16Units b)

/-- Characters treated as whitespace by JavaScript `trim` and by
`Number(string)` (WhiteSpace plus LineTerminator). -/
def isJsWhitespace (c : Char) : Bool :=
  c = ' ' || c = '\t' || c = '\n' || c = '\r' || c.toNat = 11 || c.toNat = 12 ||
  c.toNat = 0xa0 || c.toNat = 0xfeff || c.toNat = 0x2028 || c.toNat = 0x2029

/-- JavaScript `String.prototype.trim` on a character list. -/
def jsTrim (cs : List Char) : List Char :=
  ((cs.dropWhile isJsWhitespace).reverse.dropWhile isJsWhitespace).reverse

/-- Full split of a character list at every occurrence of a one-character
separator (ECMAScript `split` with no limit). -/
def splitChAux (sep : Char) : List Char → List Char → List (List Char)
  | [], acc => [acc.reverse]
  | c :: rest, acc =>
    if c = sep then acc.reverse :: splitChAux sep rest []
    else splitChAux sep rest (c :: acc)

/-- Full split at a one-character separator. -/
def splitCh (sep : Char) (cs : List Char) : List (List Char) :=
  splitChAux sep cs []

/-- ECMAScript `split(sep, limit)` for a one-character separator: collect
pieces left to right and stop once `limit` pieces are produced; the
remainder of the input is discarded. -/
def splitChLim (sep : Char) : Nat → List Char → List Char → List (List Char)
  | 0, _, _ => []
  | _ + 1, [], acc => [acc.reverse]
  | n + 1, c :: rest, acc =>
    if c = sep then acc.reverse :: splitChLim sep n rest []
    else splitChLim sep (n + 1) rest (c :: acc)

/-- Full split at every (leftmost-first) occurrence of a two-character
separator. -/
def splitStr2Aux (c1 c2 : Char) : List Char → List Char → List (List Char)
  | [], acc => [acc.reverse]
  | [c], acc => [(c :: acc).reverse]
  | a :: b :: rest, acc =>
    if a = c1 ∧ b = c2 then acc.reverse :: splitStr2Aux c1 c2 rest []
    else splitStr2Aux c1 c2 (b :: rest) (a :: acc)

/-- ECMAScript `split(sep, limit)` for a two-character separator. -/
def splitStr2Lim (c1 c2 : Char) : Nat → List Char → List Char → List (List Char)
  | 0, _, _ => []
  | _ + 1, [], acc => [acc.reverse]
  | _ + 1, [c], acc => [(c :: acc).reverse]
  | n + 1, a :: b :: rest, acc =>
    if a = c1 ∧ b = c2 then acc.reverse :: splitStr2Lim c1 c2 n rest []
    else splitStr2Lim c1 c2 (n + 1) (b :: rest) (a :: acc)

/-- Split at the first occurrence of a one-character separator only: at most
two pieces, the second being the whole remainder.  This is the reading of
the specification's words "split on the first `-`"; compare `splitChLim`. -/
def splitOnFirstCh (sep : Char) : List Char → List Char → List (List Char)
  | [], acc => [acc.reverse]
  | c :: rest, acc =>
    if c = sep then [acc.reverse, rest]
    else splitOnFirstCh sep rest (c :: acc)

/-- Split at the first occurrence of a two-character separator only: at most
two pieces, the second being the whole remainder. -/
def splitOnFirst2 (c1 c2 : Char) : List Char → List Char → List (List Char)
  | [], acc => [acc.reverse]
  | [c], acc => [(c :: acc).reverse]
  | a :: b :: rest, acc =>
    if a = c1 ∧ b = c2 then [acc.reverse, rest]
    else splitOnFirst2 c1 c2 (b :: rest) (a :: acc)

/-- Value of a decimal digit character, if it is one. -/
def decDigitVal (c : Char) : Option Nat :=
  if 48 ≤ c.toNat ∧ c.toNat ≤ 57 then some (c.toNat - 48) else none

/-- Value of a hexadecimal digit character, if it is one. -/
def hexDigitVal (c : Char) : Option Nat :=
  if 48 ≤ c.toNat ∧ c.toNat ≤ 57 then some (c.toNat - 48)
  else if 97 ≤ c.toNat ∧ c.toNat ≤ 102 then some (c.toNat - 87)
  else if 65 ≤ c.toNat ∧ c.toNat ≤ 70 then some (c.toNat - 55)
  else none

/-- Value of a digit in base `b ≤ 16`, if the character is one. -/
def digitValInBase (b : Nat) (c : Char) : Option Nat :=
  match hexDigitVal c with
  | some v => if v < b then some v else none
  | none => none

/-- Accumulate the value of a digit string in base `b`; `none` on the first
non-digit. -/
def radixValAux (b : Nat) : List Char → Nat → Option Nat
  | [], acc => some acc
  | c :: rest, acc =>
    match digitValInBase b c with
    | some v => radixValAux b rest (acc * b + v)
    | none => none

/-- Value of a non-empty all-digit string in base `b`; `none` otherwise. -/
def radixVal (b : Nat) (cs : List Char) : Option Nat :=
  match cs with
  | [] => none
  | _ => radixValAux b cs 0

/-- Whether a character is a decimal digit. -/
def isDecDigit (c : Char) : Bool :=
  (decDigitVal c).isSome

/-- Numeric value of a (checked) decimal digit list. -/
def digitsToNat (cs : List Char) : Nat :=
  cs.foldl (fun a c => a * 10 + ((decDigitVal c).getD 0)) 0

/-- Exponent part after `e`/`E` in a JavaScript decimal literal: optional
sign then one or more digits, consuming the whole rest. -/
def expVal : List Char → Option Int
  | '+' :: rest => (radixVal 10 rest).map Int.ofNat
  | '-' :: rest => (radixVal 10 rest).map (fun n => -(n : Int))
  | rest => (radixVal 10 rest).map Int.ofNat

/-- Scale a rational by a signed power of ten. -/
def applyExp (q : ℚ) (e : Int) : ℚ :=
  match e with
  | .ofNat n => q * (10 : ℚ) ^ n
  | .negSucc n => q / (10 : ℚ) ^ (n + 1)

/-- Unsigned ECMAScript decimal literal: `digits [. digits] [exp]` or
`. digits [exp]`, the whole input consumed; `none` if ill-formed. -/
def decLit (cs : List Char) : Option ℚ :=
  let intDigits := cs.takeWhile isDecDigit
  let rest1 := cs.dropWhile isDecDigit
  match rest1 with
  | [] => if intDigits.isEmpty then none else some (digitsToNat intDigits : ℚ)
  | '.' :: rest2 =>
    let fracDigits := rest2.takeWhile isDecDigit
    let rest3 := rest2.dropWhile isDecDigit
    if intDigits.isEmpty ∧ fracDigits.isEmpty then none
    else
      let base : ℚ :=
        (digitsToNat intDigits : ℚ) +
          (digitsToNat fracDigits : ℚ) / (10 : ℚ) ^ fracDigits.length
      match rest3 with
      | [] => some base
      | e :: rest4 =>
        if e = 'e' ∨ e = 'E' then (expVal rest4).map (applyExp base) else none
  | e :: rest4 =>
    if (e = 'e' ∨ e = 'E') ∧ ¬intDigits.isEmpty then
      (expVal rest4).map (applyExp (digitsToNat intDigits : ℚ))
    else none

/-- Unsigned part of a JavaScript string-to-number conversion: `Infinity`
or a decimal literal; NaN if neither. -/
def unsignedDec (neg : Bool) (cs : List Char) : JSNum :=
  if cs = "Infinity".toList then .inf neg
  else
    match decLit cs with
    | some q => .val (if neg then -q else q)
    | none => .nan

/-- Optional sign then the unsigned decimal part. -/
def signedDec (cs : List Char) : JSNum :=
  match cs with
  | '+' :: rest => unsignedDec false rest
  | '-' :: rest => unsignedDec true rest
  | _ => unsignedDec false cs

/-- Model of JavaScript `Number(string)`: trim whitespace, empty means 0,
`0x`/`0o`/`0b` forms are unsigned non-decimal integers, anything else is a
signed decimal literal or `Infinity`; NaN when nothing matches. -/
def jsNumber (s : String) : JSNum :=
  let cs := jsTrim s.toList
  match cs with
  | [] => .val 0
  | '0' :: c :: rest =>
    if c = 'x' ∨ c = 'X' then
      match radixVal 16 rest with | some n => .val n | none => .nan
    else if c = 'o' ∨ c = 'O' then
      match radixVal 8 rest with | some n => .val n | none => .nan
    else if c = 'b' ∨ c = 'B' then
      match radixVal 2 rest with | some n => .val n | none => .nan
    else signedDec cs
  | _ => signedDec cs

/-- Parsed OPA semantic version, the 4-element array
`[major, minor, point, patch]` built by `parseOPAVersion`.  The source
returns either this 4-element array or an empty array; the empty (invalid)
marker is modelled as `none` at uses. -/
structure SemVer where
  major : JSNum
  minor : JSNum
  point : JSNum
  patch : String
deriving DecidableEq

/-- Embedding of `parseOPAVersion` (src/opa.ts:72-91): split on `.` with
limit 3; fewer than 3 parts is the invalid marker (`none`); otherwise
convert the first two parts with `Number`, split the third on `-` with
limit 2 for the point number and the patch string (empty when absent). -/
def parseOPAVersion (s : String) : Option SemVer :=
  match splitChLim '.' 3 s.toList [] with
  | p0 :: p1 :: p2 :: _ =>
    let pointParts := splitChLim '-' 2 p2 []
    let patch : String :=
      match pointParts with
      | _ :: second :: _ => String.mk second
      | _ => ""
    some ⟨jsNumber (String.mk p0), jsNumber (String.mk p1),
          jsNumber (String.mk (pointParts.headD [])), patch⟩
  | _ => none

/-- Patch comparison from `opaVersionSameOrNewerThan` (src/opa.ts:62-68):
empty patch beats non-empty patch; otherwise JavaScript string `>=`. -/
def patchSameOrNewer (ap bp : String) : Bool :=
  if ap = "" ∧ bp ≠ "" then true
  else if ap ≠ "" ∧ bp = "" then false
  else jsStrGe ap bp

/-- Comparison loop of `opaVersionSameOrNewerThan` (src/opa.ts:54-68) on two
valid parsed versions: for each numeric field in order, `a`'s field greater
gives true, `b`'s greater gives false; after three ties the patch rule
decides. -/
def compareValid (av bv : SemVer) : Bool :=
  if jsGt av.major bv.major then true
  else if jsGt bv.major av.major then false
  else if jsGt av.minor bv.minor then true
  else if jsGt bv.minor av.minor then false
  else if jsGt av.point bv.point then true
  else if jsGt bv.point av.point then false
  else patchSameOrNewer av.patch bv.patch

/-- Embedding of `opaVersionSameOrNewerThan` (src/opa.ts:45-69): parse both
versions; if either parse is invalid (not a 4-element array) return true;
otherwise run the field comparison. -/
def opaVersionSameOrNewerThan (a b : String) : Bool :=
  match parseOPAVersion a, parseOPAVersion b with
  | some av, some bv => compareValid av bv
  | _, _ => true

/-- Line scan of `getOPAVersionString` (src/opa.ts:103-111): each line is
trimmed and split on `": "` with limit 2; lines with fewer than two parts
are skipped; the first line whose first part is `Version` yields its second
part; otherwise the empty string. -/
def versionFromLines : List (List Char) → String
  | [] => ""
  | line :: rest =>
    match splitStr2Lim ':' ' ' 2 (jsTrim line) [] with
    | p0 :: p1 :: _ =>
      if p0 = "Version".toList then String.mk p1 else versionFromLines rest
    | _ => versionFromLines rest

/-- Embedding of `getOPAVersionString` (src/opa.ts:94-113).  The spawn of
`opa version` is abstracted into its observable result: the exit status and
the accumulated stdout text.  Non-zero status gives the empty string;
otherwise the stdout is split into lines on `\n` and scanned. -/
def getOPAVersionString (status : Int) (stdout : String) : String :=
  if status ≠ 0 then ""
  else versionFromLines (splitCh '\n' stdout.toList)

/-- Composition at the base of `installedOPASameOrNewerThan`
(src/opa.ts:34-37): compare the reported installed version string against a
threshold. -/
def installedOPASameOrNewerThan (status : Int) (stdout : String) (x : String) : Bool :=
  opaVersionSameOrNewerThan (getOPAVersionString status stdout) x

/-- Primitive values carried by reference segments (the source stores them
untyped in `any`; only primitives reach this code path). -/
inductive RefValue where
  | str (s : String) : RefValue
  | num (n : Int) : RefValue
  | bool (b : Bool) : RefValue
  | null : RefValue
deriving DecidableEq

/-- One segment of a structured reference: a `type` tag and a `value`, as in
the JSON term objects the source walks. -/
structure RefTerm where
  type : String
  value : RefValue
deriving DecidableEq

/-- Decimal digits of a natural number (fuel-based for kernel reduction). -/
def natToDigitsAux : Nat → Nat → List Char
  | 0, _ => []
  | _ + 1, 0 => []
  | fuel + 1, n => natToDigitsAux fuel (n / 10) ++ [Char.ofNat (48 + n % 10)]

/-- Decimal string of a natural number. -/
def natToString (n : Nat) : String :=
  if n = 0 then "0" else String.mk (natToDigitsAux (n + 1) n)

/-- Decimal string of an integer (JavaScript number-to-string on integral
values within the exactly-representable range). -/
def intToString : Int → String
  | .ofNat n => natToString n
  | .negSucc n => "-" ++ natToString (n + 1)

/-- JavaScript string coercion of a primitive value (`'' + value`, also what
`RegExp.test` applies to its argument). -/
def refValueToString : RefValue → String
  | .str s => s
  | .num n => intToString n
  | .bool true => "true"
  | .bool false => "false"
  | .null => "null"

/-- Lowercase hexadecimal digit character. -/
def hexDigitChar (n : Nat) : Char :=
  if n < 10 then Char.ofNat (48 + n) else Char.ofNat (87 + n)

/-- `JSON.stringify` escaping of one character inside a string literal. -/
def escapeChar (c : Char) : List Char :=
  if c = '"' then ['\\', '"']
  else if c = '\\' then ['\\', '\\']
  else if c.toNat = 8 then ['\\', 'b']
  else if c = '\t' then ['\\', 't']
  else if c = '\n' then ['\\', 'n']
  else if c.toNat = 12 then ['\\', 'f']
  else if c = '\r' then ['\\', 'r']
  else if c.toNat < 32 then
    ['\\', 'u', '0', '0', hexDigitChar (c.toNat / 16), hexDigitChar (c.toNat % 16)]
  else [c]

/-- `JSON.stringify` of a string: double quotes around the escaped body. -/
def jsonQuote (s : String) : String :=
  String.mk ('"' :: (s.toList.map escapeChar).flatten ++ ['"'])

/-- `JSON.stringify` of a primitive value. -/
def jsonStringify : RefValue → String
  | .str s => jsonQuote s
  | .num n => intToString n
  | .bool true => "true"
  | .bool false => "false"
  | .null => "null"

/-- The `regoVarPattern` regular expression test
(src/opa.ts:11: `^[a-zA-Z_][a-zA-Z0-9_]*$`): first character. -/
def isVarStart (c : Char) : Bool :=
  (decide (97 ≤ c.toNat) && decide (c.toNat ≤ 122)) ||
  (decide (65 ≤ c.toNat) && decide (c.toNat ≤ 90)) || decide (c.toNat = 95)

/-- The `regoVarPattern` test: subsequent characters. -/
def isVarChar (c : Char) : Bool :=
  isVarStart c || (decide (48 ≤ c.toNat) && decide (c.toNat ≤ 57))

/-- `regoVarPattern.test(s)`: a letter or underscore followed by letters,
digits, or underscores (whole-string anchored, no multiline flag). -/
def regoVarTest (s : String) : Bool :=
  match s.toList with
  | [] => false
  | c :: rest => isVarStart c && rest.all isVarChar

/-- Rendering of one non-root segment in `refToString`
(src/opa.ts:122-129): a string-typed segment whose value passes
`regoVarPattern` gets dot-access form, anything else bracket form with the
value JSON-encoded. -/
def refSegToString (t : RefTerm) : String :=
  if t.type = "string" ∧ regoVarTest (refValueToString t.value) then
    "." ++ refValueToString t.value
  else
    "[" ++ jsonStringify t.value ++ "]"

/-- Embedding of `refToString` (src/opa.ts:119-131).  The source starts from
`ref[0].value`, which on an empty array reads a property of `undefined` and
throws a TypeError; that outright failure is modelled as `none`. -/
def refToString : List RefTerm → Option String
  | [] => none
  | t :: rest =>
    some (rest.foldl (fun acc seg => acc ++ refSegToString seg) (refValueToString t.value))

/-- Concatenation of a list of strings, for stating the left-to-right
contribution of the segments. -/
def concatAll (l : List String) : String :=
  l.foldr (fun a b => a ++ b) ""

/-- Everything the `runWithStatus` binary resolution (src/opa.ts:167-179)
observes of its environment: whether `commandExistsSync(path)` holds, the
configured `opa.path` setting (absent `undefined`/`null` is `none`), and
the `existsSync` file-existence predicate. -/
structure OpaEnv where
  existsOnPath : Bool
  configuredPath : Option String
  fileExists : String → Bool

/-- Outcome of the binary resolution in `runWithStatus`: either the install
prompt is triggered and the call returns with no spawn and no callback, or
a process is spawned at the resolved path. -/
inductive Resolution where
  | promptInstall : Resolution
  | spawn (path : String) : Resolution
deriving DecidableEq

/-- The source's `existsInUserSettings`: the configured path is set and
points to an existing file. -/
def existsInUserSettings (env : OpaEnv) : Bool :=
  match env.configuredPath with
  | some p => env.fileExists p
  | none => false

/-- Resolution logic of `runWithStatus` (src/opa.ts:167-179): if the binary
is neither on the search path nor a usable configured override, prompt for
install and stop; otherwise spawn, preferring the configured override. -/
def resolveOpaBinary (env : OpaEnv) (path : String) : Resolution :=
  if !(env.existsOnPath || existsInUserSettings env) then .promptInstall
  else
    match env.configuredPath with
    | some p => if env.fileExists p then .spawn p else .spawn path
    | none => .spawn path

/-- Embedding of `runWithStatus` (src/opa.ts:167-205).  The child process is
abstracted as `spawnFn`, mapping the resolved path, arguments and stdin to
the observed `(exit code, stderr, stdout)` triple handed to the callback at
exit.  `none` models the prompt-and-return branch, where the callback is
never invoked. -/
def runWithStatus (env : OpaEnv) (spawnFn : String → List String → String → Int × String × String)
    (path : String) (args : List String) (stdin : String) : Option (Int × String × String) :=
  match resolveOpaBinary env path with
  | .promptInstall => none
  | .spawn p => some (spawnFn p args stdin)

/-- Observable outcome of `run`'s callback (src/opa.ts:151-163):
`cb(message, '')` on non-zero exit, `cb('', JSON.parse(stdout))` on success,
or the `JSON.parse` exception propagating (the callback never runs). -/
inductive RunOutcome (J : Type) where
  | success (result : J) : RunOutcome J
  | failure (message : String) : RunOutcome J
  | decodeFault : RunOutcome J
deriving DecidableEq

/-- Classification step of `run` (src/opa.ts:151-163), with `JSON.parse`
abstracted as `decode` (`none` models the thrown SyntaxError): non-zero exit
reports stdout if non-empty else stderr; zero exit decodes stdout, and a
decode failure is fatal. -/
def classifyRun {J : Type} (decode : String → Option J)
    (code : Int) (stderr stdout : String) : RunOutcome J :=
  if code ≠ 0 then
    if stdout ≠ "" then .failure stdout else .failure stderr
  else
    match decode stdout with
    | some v => .success v
    | none => .decodeFault

/-- Embedding of `run` (src/opa.ts:151-163): delegate to `runWithStatus`
and classify the callback triple; `none` when no process was spawned. -/
def run {J : Type} (decode : String → Option J) (env : OpaEnv)
    (spawnFn : String → List String → String → Int × String × String)
    (path : String) (args : List String) (stdin : String) : Option (RunOutcome J) :=
  (runWithStatus env spawnFn path args stdin).map
    (fun r => classifyRun decode r.1 r.2.1 r.2.2)

/-- Field-by-field comparison as claim C1 words it: the first field where
the two versions differ decides (the greater side wins); when all three
numeric fields are equal the patch rule decides. -/
def compareSameOrNewerSpecC1 (av bv : SemVer) : Bool :=
  if av.major ≠ bv.major then jsGt av.major bv.major
  else if av.minor ≠ bv.minor then jsGt av.minor bv.minor
  else if av.point ≠ bv.point then jsGt av.point bv.point
  else if av.patch = "" ∧ bv.patch ≠ "" then true
  else if av.patch ≠ "" ∧ bv.patch = "" then false
  else jsStrGe av.patch bv.patch

/-- All three numeric fields are actual numbers (not NaN); the NaN case is
treated separately (claim C10). -/
def noNaN (v : SemVer) : Prop :=
  v.major ≠ .nan ∧ v.minor ≠ .nan ∧ v.point ≠ .nan

instance noNaN.instDecidable (v : SemVer) : Decidable (noNaN v) := by
  unfold noNaN
  infer_instance

/-- Parse as claim C3 words it: the third dot-piece is split "on the first
`-`", so the patch is the whole remainder after the first dash. -/
def parseOPAVersionSpecC3 (s : String) : Option SemVer :=
  match (splitCh '.' s.toList).take 3 with
  | p0 :: p1 :: p2 :: _ =>
    let pieces := splitOnFirstCh '-' p2 []
    let patch : String :=
      match pieces with
      | _ :: second :: _ => String.mk second
      | _ => ""
    some ⟨jsNumber (String.mk p0), jsNumber (String.mk p1),
          jsNumber (String.mk (pieces.headD [])), patch⟩
  | _ => none

/-- Parse as claim C3 must be amended: the third dot-piece is split at every
`-` and only the first two pieces are kept, so a patch stops at the second
dash (text after it is dropped). -/
def parseOPAVersionAmendedC3 (s : String) : Option SemVer :=
  match (splitCh '.' s.toList).take 3 with
  | p0 :: p1 :: p2 :: _ =>
    let pieces := (splitCh '-' p2).take 2
    let patch : String :=
      match pieces with
      | _ :: second :: _ => String.mk second
      | _ => ""
    some ⟨jsNumber (String.mk p0), jsNumber (String.mk p1),
          jsNumber (String.mk (pieces.headD [])), patch⟩
  | _ => none

/-- Line scan as claim C6 words it: each trimmed line is split on the first
occurrence of `": "`, so the result is the whole remainder after that first
occurrence. -/
def versionFromLinesSpecC6 : List (List Char) → String
  | [] => ""
  | line :: rest =>
    match splitOnFirst2 ':' ' ' (jsTrim line) [] with
    | p0 :: p1 :: _ =>
      if p0 = "Version".toList then String.mk p1 else versionFromLinesSpecC6 rest
    | _ => versionFromLinesSpecC6 rest

/-- Version extraction as claim C6 words it. -/
def getOPAVersionStringSpecC6 (status : Int) (stdout : String) : String :=
  if status ≠ 0 then ""
  else versionFromLinesSpecC6 (splitCh '\n' stdout.toList)

/-- Line scan as claim C6 must be amended: each trimmed line is split at
every `": "` and only the first two parts are kept, so the reported version
stops at the next `": "` occurrence. -/
def versionFromLinesAmendedC6 : List (List Char) → String
  | [] => ""
  | line :: rest =>
    match (splitStr2Aux ':' ' ' (jsTrim line) []).take 2 with
    | p0 :: p1 :: _ =>
      if p0 = "Version".toList then String.mk p1 else versionFromLinesAmendedC6 rest
    | _ => versionFromLinesAmendedC6 rest

/-- Version extraction as claim C6 must be amended. -/
def getOPAVersionStringAmendedC6 (status : Int) (stdout : String) : String :=
  if status ≠ 0 then ""
  else versionFromLinesAmendedC6 (splitCh '\n' stdout.toList)

theorem jsGt_irrefl (x : JSNum) : jsGt x x = false := by
  cases x with
  | nan => rfl
  | inf b => cases b <;> rfl
  | val q => simp [jsGt]

theorem jsGt_nan_left (x : JSNum) : jsGt .nan x = false := by
  cases x <;> rfl

theorem jsGt_nan_right (x : JSNum) : jsGt x .nan = false := by
  cases x with
  | nan => rfl
  | inf b => cases b <;> rfl
  | val q => rfl

theorem jsGt_asymm (x y : JSNum) (h : jsGt x y = true) : jsGt y x = false := by
  cases x with
  | nan => simp [jsGt] at h
  | inf bx =>
    cases y with
    | nan => simp [jsGt_nan_right] at h
    | inf cy => cases bx <;> cases cy <;> simp_all [jsGt]
    | val q => cases bx <;> simp_all [jsGt]
  | val a =>
    cases y with
    | nan => simp [jsGt_nan_right] at h
    | inf cy => cases cy <;> simp_all [jsGt]
    | val b =>
      simp only [jsGt, decide_eq_true_eq, decide_eq_false_iff_not] at h ⊢
      exact lt_asymm h

theorem jsGt_total_of_ne (x y : JSNum) (hx : x ≠ .nan) (hy : y ≠ .nan)
    (hxy : x ≠ y) : jsGt x y = true ∨ jsGt y x = true := by
  cases x with
  | nan => exact absurd rfl hx
  | inf bx =>
    cases y with
    | nan => exact absurd rfl hy
    | inf cy => cases bx <;> cases cy <;> simp_all [jsGt]
    | val q => cases bx <;> simp [jsGt]
  | val a =>
    cases y with
    | nan => exact absurd rfl hy
    | inf cy => cases cy <;> simp [jsGt]
    | val b =>
      have hab : a ≠ b := fun h => hxy (by rw [h])
      rcases lt_trichotomy a b with h | h | h
      · right; simp [jsGt, h]
      · exact absurd h hab
      · left; simp [jsGt, h]

theorem cuGe_refl (l : List Nat) : cuGe l l = true := by
  induction l with
  | nil => rfl
  | cons a as ih => simp [cuGe, ih]

theorem jsStrGe_refl (s : String) : jsStrGe s s = true :=
  cuGe_refl (utf16Units s)

theorem patchSameOrNewer_refl (p : String) : patchSameOrNewer p p = true := by
  simp [patchSameOrNewer, jsStrGe_refl]

theorem compareValid_refl (v : SemVer) : compareValid v v = true := by
  simp [compareValid, jsGt_irrefl, patchSameOrNewer_refl]

theorem compare_step (x y : JSNum) (hx : x ≠ .nan) (hy : y ≠ .nan)
    (k k' : Bool) (hk : k = k') :
    (if jsGt x y then true else if jsGt y x then false else k) =
    (if x ≠ y then jsGt x y else k') := by
  by_cases hxy : x = y
  · subst hxy
    simp [jsGt_irrefl, hk]
  · rcases jsGt_total_of_ne x y hx hy hxy with h | h
    · simp [h, hxy]
    · have hxyf : jsGt x y = false := jsGt_asymm y x h
      simp [hxyf, h, hxy]

theorem compareValid_eq_spec (av bv : SemVer) (ha : noNaN av) (hb : noNaN bv) :
    compareValid av bv = compareSameOrNewerSpecC1 av bv := by
  obtain ⟨ha1, ha2, ha3⟩ := ha
  obtain ⟨hb1, hb2, hb3⟩ := hb
  exact compare_step _ _ ha1 hb1 _ _
    (compare_step _ _ ha2 hb2 _ _
      (compare_step _ _ ha3 hb3 _ _ rfl))

theorem splitChLim_eq_take (sep : Char) : ∀ (lim : Nat) (cs acc : List Char),
    splitChLim sep lim cs acc = (splitChAux sep cs acc).take lim := by
  intro lim cs
  induction cs generalizing lim with
  | nil =>
    intro acc
    cases lim with
    | zero => rfl
    | succ n => simp [splitChLim, splitChAux]
  | cons c rest ih =>
    intro acc
    cases lim with
    | zero => rfl
    | succ n =>
      by_cases h : c = sep
      · simp [splitChLim, splitChAux, h, ih]
      · simp [splitChLim, splitChAux, h, ih]

theorem splitStr2Lim_eq_take (c1 c2 : Char) :
    (lim : Nat) → (cs acc : List Char) →
    splitStr2Lim c1 c2 lim cs acc = (splitStr2Aux c1 c2 cs acc).take lim
  | 0, cs, acc => by cases cs with
    | nil => rfl
    | cons a t => cases t <;> rfl
  | n + 1, [], acc => by simp [splitStr2Lim, splitStr2Aux]
  | n + 1, [c], acc => by simp [splitStr2Lim, splitStr2Aux]
  | n + 1, a :: b :: rest, acc => by
    by_cases h : a = c1 ∧ b = c2
    · simp [splitStr2Lim, splitStr2Aux, h, splitStr2Lim_eq_take c1 c2 n rest []]
    · simp [splitStr2Lim, splitStr2Aux, h,
        splitStr2Lim_eq_take c1 c2 (n + 1) (b :: rest) (a :: acc)]

theorem versionFromLines_amended (lines : List (List Char)) :
    versionFromLines lines = versionFromLinesAmendedC6 lines := by
  induction lines with
  | nil => rfl
  | cons line rest ih =>
    unfold versionFromLines versionFromLinesAmendedC6
    rw [splitStr2Lim_eq_take]
    cases h : (splitStr2Aux ':' ' ' (jsTrim line) []).take 2 with
    | nil => exact ih
    | cons p0 t => cases t with
      | nil => exact ih
      | cons p1 t2 =>
        by_cases hv : p0 = "Version".toList
        · simp [hv]
        · simp [hv, ih]

theorem foldl_refSegToString (l : List RefTerm) (init : String) :
    l.foldl (fun acc seg => acc ++ refSegToString seg) init =
      init ++ concatAll (l.map refSegToString) := by
  induction l generalizing init with
  | nil => simp [concatAll]
  | cons t rest ih => simp [concatAll, ih, String.append_assoc]

theorem sanity_parse_dev :
    parseOPAVersion "0.14.0-dev" = some ⟨.val 0, .val 14, .val 0, "dev"⟩ := by
  decide

theorem sanity_cmp :
    opaVersionSameOrNewerThan "0.15.0" "0.14.0-dev" = true ∧
    opaVersionSameOrNewerThan "0.13.0" "0.14.0-dev" = false ∧
    opaVersionSameOrNewerThan "0.14.0" "0.14.0-dev" = true ∧
    opaVersionSameOrNewerThan "not-a-version" "0.14.0-dev" = true := by
  decide

/-- C1: for version strings `a` and `b` that both parse to 4-field tuples
(with actual numbers in the three numeric fields), `opaVersionSameOrNewerThan`
compares major, then minor, then point numerically in that order; the first
field where the two differ decides the result (`a`'s field greater gives
true, `b`'s greater gives false); when all three are equal the patch fields
decide: an empty patch against a non-empty one makes the empty side newer,
otherwise the result is the lexicographic comparison `a.patch >= b.patch`. -/
theorem versionCompare_fields_decide (a b : String) (av bv : SemVer)
    (ha : parseOPAVersion a = some av) (hb : parseOPAVersion b = some bv)
    (hna : noNaN av) (hnb : noNaN bv) :
    opaVersionSameOrNewerThan a b = compareSameOrNewerSpecC1 av bv := by
  unfold opaVersionSameOrNewerThan
  rw [ha, hb]
  exact compareValid_eq_spec av bv hna hnb

theorem versionCompare_fields_decide_w :
    opaVersionSameOrNewerThan "0.15.0" "0.14.0-dev" =
      compareSameOrNewerSpecC1 ⟨.val 0, .val 15, .val 0, ""⟩
        ⟨.val 0, .val 14, .val 0, "dev"⟩ :=
  versionCompare_fields_decide "0.15.0" "0.14.0-dev" _ _
    (by decide) (by decide) (by decide) (by decide)

/-- C2: whenever either version string fails to parse (the invalid
zero-length marker, modelled as `none`), `opaVersionSameOrNewerThan` returns
`true` — the permissive fail-open default; the function is total and a
parse failure is never surfaced as an error value. -/
theorem versionCompare_permissive (a b : String)
    (h : parseOPAVersion a = none ∨ parseOPAVersion b = none) :
    opaVersionSameOrNewerThan a b = true := by
  unfold opaVersionSameOrNewerThan
  rcases h with h | h
  · rw [h]
  · rw [h]
    cases parseOPAVersion a <;> rfl

theorem versionCompare_permissive_w :
    parseOPAVersion "not-a-version" = none ∧
    opaVersionSameOrNewerThan "not-a-version" "0.14.0-dev" = true :=
  ⟨by decide, versionCompare_permissive "not-a-version" "0.14.0-dev"
    (Or.inl (by decide))⟩

/-- C3 counterexample: the claim says the patch comes from "splitting the
third piece on the first `-`", i.e. the whole remainder after the first
dash.  On `"0.0.0-a-b"` the code's split-with-limit-2 keeps only the piece
up to the second dash (`"a"`), while the claimed first-dash split keeps
`"a-b"`; the two parses differ. -/
theorem parse_firstDash_cex :
    parseOPAVersion "0.0.0-a-b" = some ⟨.val 0, .val 0, .val 0, "a"⟩ ∧
    parseOPAVersionSpecC3 "0.0.0-a-b" = some ⟨.val 0, .val 0, .val 0, "a-b"⟩ ∧
    parseOPAVersion "0.0.0-a-b" ≠ parseOPAVersionSpecC3 "0.0.0-a-b" := by
  decide

/-- C3 as amended: `parseOPAVersion` splits on `.` keeping at most the
first 3 pieces (fewer than 3 is the invalid marker); the third piece is
split at every `-` and only the first two pieces are kept, so the point is
the numeric value of the piece before the first dash and the patch is the
piece between the first and second dash (empty when there is no dash; text
after a second dash is dropped). -/
theorem parse_structure_amended (s : String) :
    parseOPAVersion s = parseOPAVersionAmendedC3 s := by
  unfold parseOPAVersion parseOPAVersionAmendedC3
  rw [show splitCh '.' s.toList = splitChAux '.' s.toList [] from rfl,
    ← splitChLim_eq_take]
  cases splitChLim '.' 3 s.toList [] with
  | nil => rfl
  | cons p0 t0 =>
    cases t0 with
    | nil => rfl
    | cons p1 t1 =>
      cases t1 with
      | nil => rfl
      | cons p2 t2 =>
        simp only [show splitCh '-' p2 = splitChAux '-' p2 [] from rfl,
          ← splitChLim_eq_take]

/-- C6 counterexample: the claim says each line is split "on the first
occurrence of `\": \"`" so the result would be the whole remainder of the
line; on the line `"Version: 1.2: x"` the code's split-with-limit-2 keeps
only `"1.2"` (the remainder after the second `": "` is discarded), not
`"1.2: x"`. -/
theorem getVersion_firstColon_cex :
    getOPAVersionString 0 "Version: 1.2: x" = "1.2" ∧
    getOPAVersionStringSpecC6 0 "Version: 1.2: x" = "1.2: x" ∧
    getOPAVersionString 0 "Version: 1.2: x" ≠
      getOPAVersionStringSpecC6 0 "Version: 1.2: x" := by
  decide

/-- C6 as amended: `getOPAVersionString` returns the empty string when the
version-query process exits non-zero; otherwise each captured stdout line
is trimmed and split at every `": "` keeping only the first two parts (so
the reported version stops before a second `": "` occurrence); the result
is the second part of the first line whose first part equals `Version`,
and the empty string when no such line exists. -/
theorem getVersion_scan_amended (status : Int) (stdout : String) :
    getOPAVersionString status stdout = getOPAVersionStringAmendedC6 status stdout := by
  unfold getOPAVersionString getOPAVersionStringAmendedC6
  by_cases h : status ≠ 0
  · simp [h]
  · simp [h, versionFromLines_amended]

/-- C7: any version string that parses to a valid 4-field tuple compares
same-or-newer to itself — `opaVersionSameOrNewerThan a a = true`, including
the patch tie rule when the patch fields are equal. -/
theorem versionCompare_refl (a : String) (av : SemVer)
    (h : parseOPAVersion a = some av) :
    opaVersionSameOrNewerThan a a = true := by
  unfold opaVersionSameOrNewerThan
  rw [h]
  exact compareValid_refl av

theorem versionCompare_refl_w :
    opaVersionSameOrNewerThan "0.14.0-dev" "0.14.0-dev" = true :=
  versionCompare_refl "0.14.0-dev" ⟨.val 0, .val 14, .val 0, "dev"⟩ (by decide)

/-- C4: when resolution succeeded and the child exited, `run` classifies the
callback triple: exit code zero decodes the accumulated stdout and returns
the decoded document as the success value, a decode failure is the
propagated fault (neither a success nor a failure value); a non-zero exit
yields a failure whose message is the captured stdout when non-empty and
the captured stderr otherwise. -/
theorem run_exit_classification {J : Type} (decode : String → Option J)
    (env : OpaEnv) (spawnFn : String → List String → String → Int × String × String)
    (path : String) (args : List String) (stdin : String)
    (code : Int) (stderr stdout : String)
    (h : runWithStatus env spawnFn path args stdin = some (code, stderr, stdout)) :
    (∀ v, code = 0 → decode stdout = some v →
      run decode env spawnFn path args stdin = some (.success v)) ∧
    (code = 0 → decode stdout = none →
      run decode env spawnFn path args stdin = some (.decodeFault)) ∧
    (code ≠ 0 →
      run decode env spawnFn path args stdin =
        some (.failure (if stdout = "" then stderr else stdout))) := by
  unfold run
  rw [h]
  refine ⟨?_, ?_, ?_⟩
  · intro v hc hd
    simp [classifyRun, hc, hd]
  · intro hc hd
    simp [classifyRun, hc, hd]
  · intro hc
    by_cases hso : stdout = ""
    · simp [classifyRun, hc, hso]
    · simp [classifyRun, hc, hso]

theorem run_exit_classification_w :
    run (fun _ => (none : Option Nat)) ⟨true, none, fun _ => false⟩
      (fun _ _ _ => ((1 : Int), "boom", "structured error")) "opa" [] "" =
      some (.failure "structured error") := by
  have h := run_exit_classification (fun _ => (none : Option Nat))
    ⟨true, none, fun _ => false⟩
    (fun _ _ _ => ((1 : Int), "boom", "structured error")) "opa" [] ""
    1 "boom" "structured error" rfl
  simpa using h.2.2 (by decide)

/-- C5: for every non-empty segment sequence, `refToString` is the verbatim
(unquoted) root value of the first segment followed, strictly left to
right, by each subsequent segment's contribution — `.` plus the literal
value for an identifier-safe string segment, otherwise `[` plus the JSON
encoding plus `]` (see `refSegToString`); in particular the worked example
of the specification renders as `input.a["b-c"][0]`. -/
theorem refFormat_structure (t : RefTerm) (rest : List RefTerm) :
    refToString (t :: rest) =
      some (refValueToString t.value ++ concatAll (rest.map refSegToString)) ∧
    refToString [⟨"var", .str "input"⟩, ⟨"string", .str "a"⟩,
      ⟨"string", .str "b-c"⟩, ⟨"number", .num 0⟩] = some "input.a[\"b-c\"][0]" := by
  constructor
  · simp only [refToString]
    rw [foldl_refSegToString]
  · decide

/-- C9: `refToString` applied to the empty segment sequence has no string
result (the source reads `ref[0].value` of a missing element and fails
outright; the total embedding makes that branch the error case `none`),
while every non-empty sequence produces a string. -/
theorem refFormat_empty_undefined :
    refToString ([] : List RefTerm) = none ∧
    ∀ (t : RefTerm) (rest : List RefTerm), (refToString (t :: rest)).isSome = true :=
  ⟨rfl, fun _ _ => rfl⟩

theorem resolve_prompt_iff (env : OpaEnv) (path : String) :
    resolveOpaBinary env path = .promptInstall ↔
      env.existsOnPath = false ∧ existsInUserSettings env = false := by
  obtain ⟨eop, cfg, fex⟩ := env
  cases cfg with
  | none => cases eop <;> simp [resolveOpaBinary, existsInUserSettings]
  | some p =>
    cases hfe : fex p <;> cases eop <;>
      simp [resolveOpaBinary, existsInUserSettings, hfe]

theorem resolve_override_priority (env : OpaEnv) (path p : String)
    (hp : env.configuredPath = some p) (hf : env.fileExists p = true) :
    resolveOpaBinary env path = .spawn p := by
  simp [resolveOpaBinary, existsInUserSettings, hp, hf]

theorem resolve_path_fallback (env : OpaEnv) (path : String)
    (h1 : env.existsOnPath = true) (h2 : existsInUserSettings env = false) :
    resolveOpaBinary env path = .spawn path := by
  cases hc : env.configuredPath with
  | none => simp [resolveOpaBinary, existsInUserSettings, h1, hc]
  | some p =>
    have hf : env.fileExists p = false := by
      simp [existsInUserSettings, hc] at h2
      exact h2
    simp [resolveOpaBinary, existsInUserSettings, h1, hc, hf]

/-- C8: the binary is usable iff it is on the search path or the configured
override points to an existing file (`resolveOpaBinary` prompts for install
exactly when neither holds); a usable override takes priority over the
search path; with only the search path the given path is spawned; and in
the prompt case `runWithStatus` returns without producing a callback triple
(no spawned process, no error value). -/
theorem runWithStatus_locate (env : OpaEnv) (path : String)
    (spawnFn : String → List String → String → Int × String × String)
    (args : List String) (stdin : String) :
    (resolveOpaBinary env path = .promptInstall ↔
      env.existsOnPath = false ∧ existsInUserSettings env = false) ∧
    (∀ p, env.configuredPath = some p → env.fileExists p = true →
      resolveOpaBinary env path = .spawn p) ∧
    (env.existsOnPath = true → existsInUserSettings env = false →
      resolveOpaBinary env path = .spawn path) ∧
    (resolveOpaBinary env path = .promptInstall →
      runWithStatus env spawnFn path args stdin = none) := by
  refine ⟨resolve_prompt_iff env path, ?_, ?_, ?_⟩
  · intro p hp hf
    exact resolve_override_priority env path p hp hf
  · intro h1 h2
    exact resolve_path_fallback env path h1 h2
  · intro h
    unfold runWithStatus
    rw [h]

theorem runWithStatus_locate_w :
    resolveOpaBinary ⟨false, some "/cfg/opa", fun _ => true⟩ "opa" =
      .spawn "/cfg/opa" :=
  (runWithStatus_locate ⟨false, some "/cfg/opa", fun _ => true⟩ "opa"
    (fun _ _ _ => ((0 : Int), "", "")) [] "").2.1 "/cfg/opa" rfl rfl

/-- C10: a version string with three dot-pieces always parses to a 4-field
tuple even when the numeric components are not numbers (so the permissive
invalid-parse default is not triggered; e.g. `"a.b.c"` parses with NaN
fields); both strict comparisons against NaN are false, so a NaN field is
treated as equal to whatever is on the other side and the comparison falls
through to the later fields and, when every numeric pair contains a NaN,
to the patch comparison. -/
theorem nan_fields_fall_through :
    (∀ s : String, (splitChLim '.' 3 s.toList []).length = 3 →
      (parseOPAVersion s).isSome = true) ∧
    parseOPAVersion "a.b.c" = some ⟨.nan, .nan, .nan, ""⟩ ∧
    (∀ x, jsGt .nan x = false ∧ jsGt x .nan = false) ∧
    (∀ av bv : SemVer, av.major = .nan ∨ bv.major = .nan →
      compareValid av bv =
        compareValid ⟨.val 0, av.minor, av.point, av.patch⟩
          ⟨.val 0, bv.minor, bv.point, bv.patch⟩) ∧
    (∀ av bv : SemVer, (av.major = .nan ∨ bv.major = .nan) →
      (av.minor = .nan ∨ bv.minor = .nan) → (av.point = .nan ∨ bv.point = .nan) →
      compareValid av bv = patchSameOrNewer av.patch bv.patch) := by
  refine ⟨?_, by decide, fun x => ⟨jsGt_nan_left x, jsGt_nan_right x⟩, ?_, ?_⟩
  · intro s h
    unfold parseOPAVersion
    cases hsp : splitChLim '.' 3 s.toList [] with
    | nil => rw [hsp] at h; simp at h
    | cons p0 t0 =>
      cases t0 with
      | nil => rw [hsp] at h; simp at h
      | cons p1 t1 =>
        cases t1 with
        | nil => rw [hsp] at h; simp at h
        | cons p2 t2 => rfl
  · intro av bv h
    have h1 : jsGt av.major bv.major = false := by
      rcases h with h | h <;> rw [h]
      · exact jsGt_nan_left _
      · exact jsGt_nan_right _
    have h2 : jsGt bv.major av.major = false := by
      rcases h with h | h <;> rw [h]
      · exact jsGt_nan_right _
      · exact jsGt_nan_left _
    simp [compareValid, h1, h2, jsGt_irrefl]
  · intro av bv hmaj hmin hpt
    have f : ∀ x y : JSNum, x = .nan ∨ y = .nan →
        jsGt x y = false ∧ jsGt y x = false := by
      intro x y h
      rcases h with h | h <;> rw [h]
      · exact ⟨jsGt_nan_left _, jsGt_nan_right _⟩
      · exact ⟨jsGt_nan_right _, jsGt_nan_left _⟩
    obtain ⟨f1, f2⟩ := f _ _ hmaj
    obtain ⟨f3, f4⟩ := f _ _ hmin
    obtain ⟨f5, f6⟩ := f _ _ hpt
    simp [compareValid, f1, f2, f3, f4, f5, f6]

theorem nan_fields_fall_through_w :
    (parseOPAVersion "a.b.c").isSome = true ∧
    compareValid ⟨.nan, .nan, .nan, "dev"⟩ ⟨.val 1, .nan, .val 2, ""⟩ =
      patchSameOrNewer "dev" "" := by
  refine ⟨nan_fields_fall_through.1 "a.b.c" (by decide), ?_⟩
  exact nan_fields_fall_through.2.2.2.2 ⟨.nan, .nan, .nan, "dev"⟩
    ⟨.val 1, .nan, .val 2, ""⟩ (Or.inl rfl) (Or.inl rfl) (Or.inl rfl)
